import Mathlib

/-!
Verification development for the token-transfer execution core
(crates/tx_prelude/src/token.rs): transparent multi-transfers, shielded
(MASP) transfer application, and the reconciliation of shielded
transparent-input addresses against transparently debited accounts.

The four functions of the source file — `transfer`, `multi_transfer`,
`apply_transparent_transfers`, `apply_shielded_transfer` — are embedded
shallowly.  External collaborators (the balance ledger, the shielded-pool
adapter, the commitment-tree updater, the event/action/verifier
primitives of `Ctx`) live in other crates of the repository; they are
modelled from the spec at their interface boundary (each such definition
carries a doc comment starting `Modelled from the spec:`).
-/

namespace Token

/-! ## Addresses and transparent-pool addresses -/

/-- An account or token address.  `internal` mirrors
`Address::is_internal` of the core crate: internal/protocol-owned
addresses (e.g. internal tokens) are distinguished from ordinary ones. -/
structure Address where
  id : Nat
  internal : Bool
deriving DecidableEq, Repr

/-- Mirrors the Rust method `Address::is_internal`. -/
def Address.is_internal (a : Address) : Bool := a.internal

/-- Injective numeric code of an address, used to model the derived
total order (`Ord`) on `Address` that `BTreeMap`/`BTreeSet` keys use. -/
def Address.code (a : Address) : Nat :=
  2 * a.id + (if a.internal then 1 else 0)

theorem address_code_inj : Function.Injective Address.code := by
  intro a b h
  unfold Address.code at h
  cases a with
  | mk ia ba =>
    cases b with
    | mk ib bb =>
      cases ba <;> cases bb <;> simp at h <;> simp [h] <;> omega

/-- Modelled from the spec: the transparent-pool address type ("vin
address"), the pool's transparent-address derivation of an account
(`addr_taddr` in `namada_core::masp`, not under `src/`).  The spec treats
it as a canonical keying derivation, so it is modelled as an injective
wrapper. -/
structure TAddr where
  addr : Address
deriving DecidableEq, Repr

/-- Modelled from the spec: `addr_taddr`, the transparent-address
derivation of an account used to key the reconciliation. -/
def addr_taddr (a : Address) : TAddr := ⟨a⟩

theorem addr_taddr_inj : Function.Injective addr_taddr := by
  intro a b h
  cases h
  rfl

/-! ## Shielded payloads and the transaction body -/

/-- Modelled from the spec: a transparent input of a shielded payload's
transparent bundle; only its authorizing transparent address is exposed
at this interface. -/
structure TxIn where
  address : TAddr
deriving DecidableEq, Repr

/-- Modelled from the spec: the transparent bundle of a shielded payload,
carrying the list of authorizing transparent inputs (`vin`). -/
structure TransparentBundle where
  vin : List TxIn
deriving DecidableEq, Repr

/-- Modelled from the spec: a shielded transaction payload, exposing an
optional transparent bundle (the only part this core inspects). -/
structure ShieldedPayload where
  transparent_bundle : Option TransparentBundle
deriving DecidableEq, Repr

/-- A content-addressed reference to a shielded section (`MaspTxId`). -/
abbrev MaspTxId := Nat

/-- Modelled from the spec: the transaction body, with its embedded
shielded sections addressable by `MaspTxId`. -/
structure Tx where
  masp_sections : List (MaspTxId × ShieldedPayload)
deriving Repr

/-- Modelled from the spec: `get_section(reference) -> Option<Payload>`
against the transaction body. -/
def Tx.get_masp_section (tx : Tx) (r : MaspTxId) : Option ShieldedPayload :=
  tx.masp_sections.lookup r

/-- The `BatchedTx` wrapper handed to the transfer functions. -/
structure BatchedTx where
  tx : Tx
deriving Repr

/-! ## Actions, events, errors -/

/-- The two MASP action variants pushed by this core
(`MaspAction::MaspSectionRef`, `MaspAction::MaspAuthorizer`). -/
inductive MaspAction where
  | maspSectionRef (r : MaspTxId)
  | maspAuthorizer (a : Address)
deriving DecidableEq, Repr

/-- An action-log record (`Action::Masp` is the only variant used). -/
inductive Action where
  | masp (m : MaspAction)
deriving DecidableEq, Repr

/-- Event payload account wrapper; the source only builds
`UserAccount::Internal`. -/
inductive UserAccount where
  | internal (a : Address)
deriving DecidableEq, Repr

/-- Injective numeric code of a `UserAccount`, modelling its derived
order. -/
def UserAccount.code : UserAccount → Nat
  | .internal a => a.code

/-- Event severity level. -/
inductive EventLevel where
  | tx
  | block
deriving DecidableEq, Repr

/-- Key of an event mapping: (account, token). -/
abbrev EvtKey := UserAccount × Address

/-- An event mapping, modelling a `BTreeMap<(UserAccount, Address), _>`
as a sorted association list. -/
abbrev EvtMap := List (EvtKey × Nat)

/-- The token-event operation payload: a single transfer (source, target,
token, amount, post balances) or a multi-party transfer (sources,
targets, post balances). -/
inductive TokenOperation where
  | transferSingle (source target : UserAccount) (token : Address)
      (amount : Nat) (source_post_balance : Nat)
      (target_post_balance : Option Nat)
  | transferMulti (sources : EvtMap) (targets : EvtMap)
      (post_balances : EvtMap)
deriving DecidableEq, Repr

/-- An emitted token event. -/
structure TokenEvent where
  descriptor : String
  level : EventLevel
  operation : TokenOperation
deriving DecidableEq, Repr

/-- The error type: a plain message (`Error::SimpleMessage`) or an error
wrapped with added context (`wrap_err`). -/
inductive Err where
  | simpleMessage (msg : String)
  | wrapErr (context : String) (inner : Err)
deriving DecidableEq, Repr

/-! ## The transaction context -/

/-- Per-(token, account) balances of the balance ledger. -/
def Balances := Address → Address → Nat

/-- The mutable transaction context: ledger balances, verifier registry,
action log, emitted events, and the number of times the commitment-tree
sentinel has been set. -/
structure Ctx where
  balances : Balances
  verifiers : List Address
  actions : List Action
  events : List TokenEvent
  sentinel_calls : Nat

/-- Modelled from the spec: `insert_verifier`, idempotent append to the
verifier registry. -/
def Ctx.insert_verifier (ctx : Ctx) (a : Address) : Ctx :=
  if a ∈ ctx.verifiers then ctx
  else { ctx with verifiers := ctx.verifiers ++ [a] }

/-- Modelled from the spec: `push_action`, append to the ordered action
log. -/
def Ctx.push_action (ctx : Ctx) (act : Action) : Ctx :=
  { ctx with actions := ctx.actions ++ [act] }

/-- Modelled from the spec: `emit`, append a token event. -/
def Ctx.emit (ctx : Ctx) (e : TokenEvent) : Ctx :=
  { ctx with events := ctx.events ++ [e] }

/-- Modelled from the spec: `set_commitment_sentinel`; the count records
how many times the sentinel was set (the flag itself is `0 <` count). -/
def Ctx.set_commitment_sentinel (ctx : Ctx) : Ctx :=
  { ctx with sentinel_calls := ctx.sentinel_calls + 1 }

/-- Modelled from the spec: `read_balance(token, account)`. -/
def read_balance (ctx : Ctx) (token owner : Address) : Nat :=
  ctx.balances token owner

/-- Point update of the balance ledger. -/
def writeBalance (b : Balances) (token owner : Address) (v : Nat) :
    Balances :=
  fun t o => if t = token ∧ o = owner then v else b t o

/-- Modelled from the spec: the external collaborators with variable
outcomes — the shielded-pool adapter (`utils::handle_masp_tx`) and the
commitment-tree updater (`update_masp_note_commitment_tree`), both of
which live outside `src/`. -/
structure Env where
  handle_masp_tx : ShieldedPayload → Except Err Unit
  update_masp_note_commitment_tree : ShieldedPayload → Except Err Unit

/-! ## The shielded transfer applier (`apply_shielded_transfer`) -/

/-- The deduplicated set of vin addresses claimed by the shielded
payload's transparent bundle (a `BTreeSet` in the source; only its
cardinality and membership are consumed, which `dedup` models). -/
def vin_addresses (shielded : ShieldedPayload) : List TAddr :=
  match shielded.transparent_bundle with
  | none => []
  | some bndl => (bndl.vin.map TxIn.address).dedup

/-- The debited accounts whose transparent-pool address appears among the
vin addresses (the `masp_authorizers` filter of the source). -/
def masp_authorizers (shielded : ShieldedPayload)
    (debited_accounts : List Address) : List Address :=
  debited_accounts.filter
    (fun account => decide (addr_taddr account ∈ vin_addresses shielded))

/-- `apply_shielded_transfer`: resolve the shielded section (setting the
commitment sentinel and failing when missing), run the pool adapter and
the commitment-tree update (each failure wrapped with context), push the
section-reference action, reconcile authorizers against vin addresses,
and on success push one authorizer action per matched account.  The
returned `Ctx` carries all mutations made up to the point of return. -/
def apply_shielded_transfer (env : Env) (ctx : Ctx)
    (masp_section_ref : MaspTxId) (debited_accounts : List Address)
    (tx_data : BatchedTx) : Ctx × Except Err Unit :=
  match tx_data.tx.get_masp_section masp_section_ref with
  | none =>
    (ctx.set_commitment_sentinel,
     .error (.simpleMessage
       "Unable to find required shielded section in tx data"))
  | some shielded =>
    match env.handle_masp_tx shielded with
    | .error e =>
      (ctx, .error (.wrapErr
        "Encountered error while handling MASP transaction" e))
    | .ok _ =>
      match env.update_masp_note_commitment_tree shielded with
      | .error e =>
        (ctx, .error (.wrapErr
          "Failed to update the MASP commitment tree" e))
      | .ok _ =>
        let ctx :=
          ctx.push_action (.masp (.maspSectionRef masp_section_ref))
        let authorizers := masp_authorizers shielded debited_accounts
        if authorizers.length ≠ (vin_addresses shielded).length then
          (ctx, .error (.simpleMessage
            "Transfer transaction does not debit all the expected accounts"))
        else
          (authorizers.foldl
            (fun c a => c.push_action (.masp (.maspAuthorizer a))) ctx,
           .ok ())

/-! ## Sorted association maps (the `BTreeMap` model) -/

/-- Lexicographic order on pairs of numeric key codes ("by account then
token"). -/
def PcLt (p q : Nat × Nat) : Prop :=
  p.1 < q.1 ∨ (p.1 = q.1 ∧ p.2 < q.2)

instance (p q : Nat × Nat) : Decidable (PcLt p q) := by
  unfold PcLt
  infer_instance

/-- Numeric key code of a balance-map key (account, token). -/
def pairCode (k : Address × Address) : Nat × Nat :=
  (k.1.code, k.2.code)

/-- Numeric key code of an event-map key (account, token). -/
def ekeyCode (k : EvtKey) : Nat × Nat :=
  (k.1.code, k.2.code)

/-- Ordered insertion into a sorted association list, combining values on
an existing key with `comb` (for `BTreeMap`, `comb` is replacement; for
building a summed mapping, `comb` is addition). -/
def minsert {K V : Type} (key : K → Nat × Nat) (comb : V → V → V) :
    List (K × V) → K → V → List (K × V)
  | [], k, v => [(k, v)]
  | e :: rest, k, v =>
    if PcLt (key k) (key e.1) then (k, v) :: e :: rest
    else if key k = key e.1 then (e.1, comb e.2 v) :: rest
    else e :: minsert key comb rest k v

/-- A transparent sources/targets mapping: (account, token) → amount, as
a sorted association list modelling the `BTreeMap`. -/
abbrev SrcMap := List ((Address × Address) × Nat)

/-- Modelled from the spec: building the canonical sources/targets
mapping of a `Transfer` descriptor from raw legs — insertion order is
irrelevant, duplicate (account, token) keys have their amounts summed. -/
def canonMap (legs : List ((Address × Address) × Nat)) : SrcMap :=
  legs.foldl (fun m e => minsert pairCode (· + ·) m e.1 e.2) []

/-! ## The balance ledger (external collaborator) -/

/-- The fixed width of `Amount`: quantities must fit 256 bits. -/
def amountMax : Nat := 2 ^ 256 - 1

/-- Total debit of (account, token) in a mapping. -/
def sumAmounts (m : SrcMap) (acc tok : Address) : Nat :=
  (m.filter (fun e => decide (e.1 = (acc, tok)))).foldl
    (fun s e => s + e.2) 0

/-- Net post balance of a key under a multi-transfer, as an integer. -/
def netPost (b : Balances) (sources targets : SrcMap)
    (k : Address × Address) : Int :=
  (b k.2 k.1 : Int) + sumAmounts targets k.1 k.2 - sumAmounts sources k.1 k.2

/-- Modelled from the spec: `namada_token::multi_transfer`, the balance
ledger's atomic multi-party mutation.  Amounts are summed per
(account, token) key; it fails entirely when any source's net balance
would go negative (insufficient balance) or any credit would overflow the
amount width; on success it returns the new balances together with the
set of accounts that had at least one balance reduced. -/
def ledger_multi_transfer (b : Balances) (sources targets : SrcMap) :
    Except Err (Balances × List Address) :=
  let keys := (sources.map Prod.fst ++ targets.map Prod.fst).dedup
  if keys.any (fun k => decide (netPost b sources targets k < 0)) then
    .error (.simpleMessage "insufficient balance")
  else if keys.any
      (fun k => decide ((amountMax : Int) < netPost b sources targets k)) then
    .error (.simpleMessage "amount overflow")
  else
    .ok
      (fun t o =>
        if (o, t) ∈ keys then (netPost b sources targets (o, t)).toNat
        else b t o,
       ((keys.filter
          (fun k => decide (netPost b sources targets k < (b k.2 k.1 : Int)))).map
         Prod.fst).dedup)

/-- Modelled from the spec: `namada_token::transfer`, the single-pair
debit/credit primitive of the balance ledger. -/
def ledger_transfer (b : Balances) (token src dest : Address)
    (amount : Nat) : Except Err Balances :=
  let srcBal := b token src
  if srcBal < amount then
    .error (.simpleMessage "insufficient balance")
  else
    let b1 := writeBalance b token src (srcBal - amount)
    let destBal := b1 token dest
    if amountMax < destBal + amount then
      .error (.simpleMessage "amount overflow")
    else
      .ok (writeBalance b1 token dest (destBal + amount))

/-! ## The transfer descriptor -/

/-- The pair of canonical sources/targets mappings handed to
`apply_transparent_transfers` (`TransparentTransfersRef`). -/
structure TransparentTransfersRef where
  sources : SrcMap
  targets : SrcMap
deriving Repr

/-- The transaction-level transfer descriptor: optional transparent part
and optional shielded-section reference. -/
structure Transfer where
  sources : SrcMap
  targets : SrcMap
  shielded_section_hash : Option MaspTxId
deriving Repr

/-- Modelled from the spec: `Transfer::transparent_part`, present exactly
when the descriptor carries any transparent leg. -/
def Transfer.transparent_part (t : Transfer) :
    Option TransparentTransfersRef :=
  if t.sources.isEmpty && t.targets.isEmpty then none
  else some ⟨t.sources, t.targets⟩

/-! ## The transparent transfer applier (`apply_transparent_transfers`) -/

/-- One pass of the per-leg loop of `apply_transparent_transfers`:
register the account (and an internal token) as verifiers, record the
amount in the leg's event mapping and the post balance in the shared
post-balances mapping. -/
def procLeg : Ctx → EvtMap → EvtMap → SrcMap → Ctx × EvtMap × EvtMap
  | ctx, emap, pmap, [] => (ctx, emap, pmap)
  | ctx, emap, pmap, ((acc, tok), amount) :: rest =>
    let ctx1 := ctx.insert_verifier acc
    let ctx2 := if tok.is_internal then ctx1.insert_verifier tok else ctx1
    let emap1 :=
      minsert ekeyCode (fun _ v => v) emap (.internal acc, tok) amount
    let pmap1 :=
      minsert ekeyCode (fun _ v => v) pmap (.internal acc, tok)
        (read_balance ctx2 tok acc)
    procLeg ctx2 emap1 pmap1 rest

/-- `apply_transparent_transfers`: run the ledger's atomic multi-party
mutation, then walk sources and targets in canonical order registering
verifiers and building the event mappings, emit one multi-transfer token
event, and return the debited accounts. -/
def apply_transparent_transfers (ctx : Ctx)
    (transfers : TransparentTransfersRef) :
    Ctx × Except Err (List Address) :=
  let sources := transfers.sources
  let targets := transfers.targets
  match ledger_multi_transfer ctx.balances sources targets with
  | .error e => (ctx, .error e)
  | .ok (b, debited_accounts) =>
    let ctx1 := { ctx with balances := b }
    let r1 := procLeg ctx1 [] [] sources
    let r2 := procLeg r1.1 [] r1.2.2 targets
    let ctx2 := r2.1.emit
      { descriptor := "transfer-from-wasm"
        level := .tx
        operation := .transferMulti r1.2.1 r2.2.1 r2.2.2 }
    (ctx2, .ok debited_accounts)

/-! ## The single-pair transfer and the orchestrator -/

/-- `transfer`: the single-pair convenience operation — register source,
destination (and an internal token) as verifiers, run the ledger
primitive, and emit one single-transfer token event carrying the amount
and both post balances. -/
def transfer (ctx : Ctx) (src dest token : Address) (amount : Nat) :
    Ctx × Except Err Unit :=
  let ctx1 := ctx.insert_verifier src
  let ctx2 := ctx1.insert_verifier dest
  let ctx3 := if token.is_internal then ctx2.insert_verifier token else ctx2
  match ledger_transfer ctx3.balances token src dest amount with
  | .error e => (ctx3, .error e)
  | .ok b =>
    let ctx4 := { ctx3 with balances := b }
    (ctx4.emit
      { descriptor := "transfer-from-wasm"
        level := .tx
        operation := .transferSingle (.internal src) (.internal dest)
          token amount (read_balance ctx4 token src)
          (some (read_balance ctx4 token dest)) },
     .ok ())

/-- `multi_transfer`: apply the transparent part first (when present),
capturing its debited accounts (empty set otherwise), then apply the
shielded transfer (when referenced) with exactly that set; each stage's
failure is wrapped with a stage-identifying context. -/
def multi_transfer (env : Env) (ctx : Ctx) (transfers : Transfer)
    (tx_data : BatchedTx) : Ctx × Except Err Unit :=
  match Transfer.transparent_part transfers with
  | some transparent =>
    match apply_transparent_transfers ctx transparent with
    | (ctx1, .error e) =>
      (ctx1, .error (.wrapErr "Transparent token transfer failed" e))
    | (ctx1, .ok debited_accounts) =>
      match transfers.shielded_section_hash with
      | some masp_section_ref =>
        match apply_shielded_transfer env ctx1 masp_section_ref
            debited_accounts tx_data with
        | (ctx2, .error e) =>
          (ctx2, .error (.wrapErr "Shielded token transfer failed" e))
        | (ctx2, .ok _) => (ctx2, .ok ())
      | none => (ctx1, .ok ())
  | none =>
    match transfers.shielded_section_hash with
    | some masp_section_ref =>
      match apply_shielded_transfer env ctx masp_section_ref [] tx_data with
      | (ctx2, .error e) =>
        (ctx2, .error (.wrapErr "Shielded token transfer failed" e))
      | (ctx2, .ok _) => (ctx2, .ok ())
    | none => (ctx, .ok ())

/-! ## Basic lemmas about the shielded transfer applier -/

theorem foldl_push_authorizers (ctx : Ctx) (l : List Address) :
    l.foldl (fun c a => c.push_action (.masp (.maspAuthorizer a))) ctx =
      { ctx with
        actions := ctx.actions ++
          l.map (fun a => Action.masp (.maspAuthorizer a)) } := by
  induction l generalizing ctx with
  | nil => simp
  | cons a rest ih =>
    simp only [List.foldl_cons, List.map_cons]
    rw [ih]
    simp [Ctx.push_action]

/-- Shape of `apply_shielded_transfer` when the section is missing. -/
theorem shielded_missing_shape (env : Env) (ctx : Ctx) (r : MaspTxId)
    (debited : List Address) (tx_data : BatchedTx)
    (hget : tx_data.tx.get_masp_section r = none) :
    apply_shielded_transfer env ctx r debited tx_data =
      (ctx.set_commitment_sentinel,
       .error (.simpleMessage
         "Unable to find required shielded section in tx data")) := by
  unfold apply_shielded_transfer
  rw [hget]

/-- Shape of `apply_shielded_transfer` when the pool adapter fails. -/
theorem shielded_adapter_error_shape (env : Env) (ctx : Ctx)
    (r : MaspTxId) (debited : List Address) (tx_data : BatchedTx)
    (sh : ShieldedPayload) (e : Err)
    (hget : tx_data.tx.get_masp_section r = some sh)
    (hh : env.handle_masp_tx sh = .error e) :
    apply_shielded_transfer env ctx r debited tx_data =
      (ctx, .error (.wrapErr
        "Encountered error while handling MASP transaction" e)) := by
  unfold apply_shielded_transfer
  rw [hget]
  simp only [hh]

/-- Shape of `apply_shielded_transfer` when the commitment-tree update
fails. -/
theorem shielded_tree_error_shape (env : Env) (ctx : Ctx) (r : MaspTxId)
    (debited : List Address) (tx_data : BatchedTx)
    (sh : ShieldedPayload) (e : Err)
    (hget : tx_data.tx.get_masp_section r = some sh)
    (hh : env.handle_masp_tx sh = .ok ())
    (hu : env.update_masp_note_commitment_tree sh = .error e) :
    apply_shielded_transfer env ctx r debited tx_data =
      (ctx, .error (.wrapErr
        "Failed to update the MASP commitment tree" e)) := by
  unfold apply_shielded_transfer
  rw [hget]
  simp only [hh, hu]

/-- Shape of `apply_shielded_transfer` on the authorization-mismatch
path. -/
theorem shielded_mismatch_shape (env : Env) (ctx : Ctx) (r : MaspTxId)
    (debited : List Address) (tx_data : BatchedTx) (sh : ShieldedPayload)
    (hget : tx_data.tx.get_masp_section r = some sh)
    (hh : env.handle_masp_tx sh = .ok ())
    (hu : env.update_masp_note_commitment_tree sh = .ok ())
    (hlen : (masp_authorizers sh debited).length ≠
      (vin_addresses sh).length) :
    apply_shielded_transfer env ctx r debited tx_data =
      ({ ctx with
          actions := ctx.actions ++ [Action.masp (.maspSectionRef r)] },
       .error (.simpleMessage
         "Transfer transaction does not debit all the expected accounts")) := by
  unfold apply_shielded_transfer
  rw [hget]
  simp only [hh, hu]
  simp [hlen, Ctx.push_action]

/-- Shape of `apply_shielded_transfer` on the success path. -/
theorem shielded_ok_shape (env : Env) (ctx : Ctx) (r : MaspTxId)
    (debited : List Address) (tx_data : BatchedTx) (sh : ShieldedPayload)
    (hget : tx_data.tx.get_masp_section r = some sh)
    (hh : env.handle_masp_tx sh = .ok ())
    (hu : env.update_masp_note_commitment_tree sh = .ok ())
    (hlen : (masp_authorizers sh debited).length =
      (vin_addresses sh).length) :
    apply_shielded_transfer env ctx r debited tx_data =
      ({ ctx with
          actions := ctx.actions ++
            Action.masp (.maspSectionRef r) ::
              (masp_authorizers sh debited).map
                (fun a => Action.masp (.maspAuthorizer a)) },
       .ok ()) := by
  unfold apply_shielded_transfer
  rw [hget]
  simp only [hh, hu]
  rw [if_neg (by simp [hlen])]
  rw [foldl_push_authorizers]
  simp [Ctx.push_action]

/-! ## Concrete example values used by witnesses and counterexamples -/

/-- Example ordinary account. -/
def exA : Address := ⟨0, false⟩

/-- Example ordinary account. -/
def exB : Address := ⟨1, false⟩

/-- Example account that never transacts. -/
def exC : Address := ⟨3, false⟩

/-- Example internal token address. -/
def exTok : Address := ⟨2, true⟩

/-- Example starting balances: `exA` holds 100, `exB` holds 5. -/
def exBal : Balances := fun t o =>
  if t = exTok ∧ o = exA then 100
  else if t = exTok ∧ o = exB then 5
  else 0

/-- Example starting context. -/
def exCtx : Ctx := ⟨exBal, [], [], [], 0⟩

/-- Example environment whose adapter and tree update always succeed. -/
def exEnv : Env := ⟨fun _ => .ok (), fun _ => .ok ()⟩

/-- Example shielded payload whose vin addresses are the pool addresses
of `exA` and `exB`. -/
def exShielded : ShieldedPayload :=
  ⟨some ⟨[⟨addr_taddr exA⟩, ⟨addr_taddr exB⟩]⟩⟩

/-- Example shielded payload with no transparent bundle. -/
def exShieldedNoBundle : ShieldedPayload := ⟨none⟩

/-- Example transaction body carrying `exShielded` at reference 7 and
`exShieldedNoBundle` at reference 8. -/
def exTx : BatchedTx := ⟨⟨[(7, exShielded), (8, exShieldedNoBundle)]⟩⟩

/-! ## Claim C3 -/

/-- C3: `apply_shielded_transfer` sets the commitment-tree sentinel
(exactly once) if and only if the referenced shielded section cannot be
resolved in the transaction body, failing then with the missing-section
error; adapter and commitment-tree failures are propagated wrapped with
context and leave the sentinel untouched. -/
theorem apply_shielded_transfer_sentinel_iff_missing_section
    (env : Env) (ctx : Ctx) (r : MaspTxId) (debited : List Address)
    (tx_data : BatchedTx) :
    (tx_data.tx.get_masp_section r = none →
      apply_shielded_transfer env ctx r debited tx_data =
        ({ ctx with sentinel_calls := ctx.sentinel_calls + 1 },
         .error (.simpleMessage
           "Unable to find required shielded section in tx data")))
    ∧ (∀ sh e, tx_data.tx.get_masp_section r = some sh →
        env.handle_masp_tx sh = .error e →
        apply_shielded_transfer env ctx r debited tx_data =
          (ctx, .error (.wrapErr
            "Encountered error while handling MASP transaction" e)))
    ∧ (∀ sh e, tx_data.tx.get_masp_section r = some sh →
        env.handle_masp_tx sh = .ok () →
        env.update_masp_note_commitment_tree sh = .error e →
        apply_shielded_transfer env ctx r debited tx_data =
          (ctx, .error (.wrapErr
            "Failed to update the MASP commitment tree" e)))
    ∧ ((apply_shielded_transfer env ctx r debited
          tx_data).1.sentinel_calls ≠ ctx.sentinel_calls ↔
        tx_data.tx.get_masp_section r = none) := by
  refine ⟨?_, ?_, ?_, ?_⟩
  · intro hget
    simpa [Ctx.set_commitment_sentinel] using
      shielded_missing_shape env ctx r debited tx_data hget
  · intro sh e hget hh
    exact shielded_adapter_error_shape env ctx r debited tx_data sh e
      hget hh
  · intro sh e hget hh hu
    exact shielded_tree_error_shape env ctx r debited tx_data sh e
      hget hh hu
  · cases heq : tx_data.tx.get_masp_section r with
    | none =>
      rw [shielded_missing_shape env ctx r debited tx_data heq]
      simp [Ctx.set_commitment_sentinel]
    | some sh =>
      have hsent : (apply_shielded_transfer env ctx r debited
          tx_data).1.sentinel_calls = ctx.sentinel_calls := by
        cases hh : env.handle_masp_tx sh with
        | error e =>
          rw [shielded_adapter_error_shape env ctx r debited tx_data sh e
            heq hh]
        | ok u =>
          cases u
          cases hu : env.update_masp_note_commitment_tree sh with
          | error e =>
            rw [shielded_tree_error_shape env ctx r debited tx_data sh e
              heq hh hu]
          | ok u2 =>
            cases u2
            by_cases hlen : (masp_authorizers sh debited).length =
              (vin_addresses sh).length
            · rw [shielded_ok_shape env ctx r debited tx_data sh heq hh
                hu hlen]
            · rw [shielded_mismatch_shape env ctx r debited tx_data sh
                heq hh hu hlen]
      simp [hsent]

/-- Witness for C3 at a concrete input: reference 9 is absent from the
example transaction body, the call fails with the missing-section error
and the sentinel count goes from 0 to 1. -/
theorem apply_shielded_transfer_sentinel_iff_missing_section_witness :
    exTx.tx.get_masp_section 9 = none ∧
    apply_shielded_transfer exEnv exCtx 9 [] exTx =
      ({ exCtx with sentinel_calls := exCtx.sentinel_calls + 1 },
       .error (.simpleMessage
         "Unable to find required shielded section in tx data")) :=
  ⟨by decide,
   (apply_shielded_transfer_sentinel_iff_missing_section exEnv exCtx 9 []
     exTx).1 (by decide)⟩

/-! ## Claim C10 -/

/-- C10: on the authorization-mismatch error path the `MaspSectionRef`
action has already been pushed and remains in the action log — the log is
strictly extended rather than left unchanged — while no authorizer
actions are pushed. -/
theorem apply_shielded_transfer_mismatch_keeps_section_ref (env : Env)
    (ctx : Ctx) (r : MaspTxId) (debited : List Address)
    (tx_data : BatchedTx) (sh : ShieldedPayload)
    (hget : tx_data.tx.get_masp_section r = some sh)
    (hh : env.handle_masp_tx sh = .ok ())
    (hu : env.update_masp_note_commitment_tree sh = .ok ())
    (hlen : (masp_authorizers sh debited).length ≠
      (vin_addresses sh).length) :
    apply_shielded_transfer env ctx r debited tx_data =
      ({ ctx with
          actions := ctx.actions ++ [Action.masp (.maspSectionRef r)] },
       .error (.simpleMessage
         "Transfer transaction does not debit all the expected accounts")) ∧
    ctx.actions ++ [Action.masp (.maspSectionRef r)] ≠ ctx.actions := by
  refine ⟨shielded_mismatch_shape env ctx r debited tx_data sh hget hh hu
    hlen, ?_⟩
  intro h
  have hle := congrArg List.length h
  simp at hle

/-- Witness for C10 at a concrete input: only `exA` was debited while
the shielded payload claims both `exA` and `exB`; the call fails with the
mismatch error yet the section-reference action is in the log. -/
theorem apply_shielded_transfer_mismatch_keeps_section_ref_witness :
    apply_shielded_transfer exEnv exCtx 7 [exA] exTx =
      ({ exCtx with
          actions := exCtx.actions ++ [Action.masp (.maspSectionRef 7)] },
       .error (.simpleMessage
         "Transfer transaction does not debit all the expected accounts")) ∧
    exCtx.actions ++ [Action.masp (.maspSectionRef 7)] ≠ exCtx.actions :=
  apply_shielded_transfer_mismatch_keeps_section_ref exEnv exCtx 7 [exA]
    exTx exShielded (by decide) rfl rfl (by decide)

/-! ## Reconciliation lemmas -/

theorem vin_addresses_nodup (sh : ShieldedPayload) :
    (vin_addresses sh).Nodup := by
  obtain ⟨b⟩ := sh
  cases b with
  | none => simp [vin_addresses]
  | some bndl =>
    simpa [vin_addresses] using
      List.nodup_dedup (bndl.vin.map TxIn.address)

theorem mem_masp_authorizers {sh : ShieldedPayload}
    {debited : List Address} {a : Address} :
    a ∈ masp_authorizers sh debited ↔
      a ∈ debited ∧ addr_taddr a ∈ vin_addresses sh := by
  unfold masp_authorizers
  simp [List.mem_filter]

/-! ## Claim C1 -/

/-- C1: when the shielded section resolves and the adapter and tree
update succeed, but some vin address is not the pool address of any
debited account, the call fails with the authorization-mismatch error and
the only newly pushed action is the section reference — no authorizer
action. -/
theorem apply_shielded_transfer_uncovered_vin_fails (env : Env)
    (ctx : Ctx) (r : MaspTxId) (debited : List Address)
    (tx_data : BatchedTx) (sh : ShieldedPayload) (t : TAddr)
    (hget : tx_data.tx.get_masp_section r = some sh)
    (hh : env.handle_masp_tx sh = .ok ())
    (hu : env.update_masp_note_commitment_tree sh = .ok ())
    (hnodup : debited.Nodup)
    (ht : t ∈ vin_addresses sh)
    (hun : ∀ a ∈ debited, addr_taddr a ≠ t) :
    apply_shielded_transfer env ctx r debited tx_data =
      ({ ctx with
          actions := ctx.actions ++ [Action.masp (.maspSectionRef r)] },
       .error (.simpleMessage
         "Transfer transaction does not debit all the expected accounts")) ∧
    ∀ a, Action.masp (.maspAuthorizer a) ∉
      [Action.masp (MaspAction.maspSectionRef r)] := by
  have hlen : (masp_authorizers sh debited).length ≠
      (vin_addresses sh).length := by
    have hA : (masp_authorizers sh debited).Nodup := hnodup.filter _
    have hmapnd : ((masp_authorizers sh debited).map addr_taddr).Nodup :=
      hA.map addr_taddr_inj
    have hsub : (masp_authorizers sh debited).map addr_taddr ⊆
        (vin_addresses sh).erase t := by
      intro x hx
      obtain ⟨a, ha, rfl⟩ := List.mem_map.mp hx
      have hmem := mem_masp_authorizers.mp ha
      exact (List.mem_erase_of_ne (hun a hmem.1)).mpr hmem.2
    have hle := (List.subperm_of_subset hmapnd hsub).length_le
    rw [List.length_map, List.length_erase_of_mem ht] at hle
    have hpos : 0 < (vin_addresses sh).length :=
      List.length_pos_of_mem ht
    omega
  exact ⟨shielded_mismatch_shape env ctx r debited tx_data sh hget hh hu
    hlen, by simp⟩

/-- Witness for C1 at a concrete input: nothing was debited but the
shielded payload claims `exA` and `exB` as vin addresses; the call fails
with the mismatch error and pushes no authorizer action. -/
theorem apply_shielded_transfer_uncovered_vin_fails_witness :
    apply_shielded_transfer exEnv exCtx 7 [] exTx =
      ({ exCtx with
          actions := exCtx.actions ++ [Action.masp (.maspSectionRef 7)] },
       .error (.simpleMessage
         "Transfer transaction does not debit all the expected accounts")) ∧
    ∀ a, Action.masp (.maspAuthorizer a) ∉
      [Action.masp (MaspAction.maspSectionRef 7)] :=
  apply_shielded_transfer_uncovered_vin_fails exEnv exCtx 7 [] exTx
    exShielded (addr_taddr exA) (by decide) rfl rfl (by decide)
    (by decide) (by decide)

/-! ## Claim C2 -/

/-- C2: when the shielded section resolves, the adapter and tree update
succeed, and the vin addresses are exactly the pool addresses of the
debited accounts, the call succeeds and the action log is extended by
exactly one `MaspSectionRef` action followed by exactly one
`MaspAuthorizer` action per debited account, the section reference
strictly before every authorizer. -/
theorem apply_shielded_transfer_exact_vin_succeeds (env : Env)
    (ctx : Ctx) (r : MaspTxId) (debited : List Address)
    (tx_data : BatchedTx) (sh : ShieldedPayload)
    (hget : tx_data.tx.get_masp_section r = some sh)
    (hh : env.handle_masp_tx sh = .ok ())
    (hu : env.update_masp_note_commitment_tree sh = .ok ())
    (hnodup : debited.Nodup)
    (hexact : ∀ t, t ∈ vin_addresses sh ↔ t ∈ debited.map addr_taddr) :
    apply_shielded_transfer env ctx r debited tx_data =
      ({ ctx with
          actions := ctx.actions ++
            Action.masp (.maspSectionRef r) ::
              debited.map (fun a => Action.masp (.maspAuthorizer a)) },
       .ok ()) := by
  have hfilter : masp_authorizers sh debited = debited := by
    unfold masp_authorizers
    apply List.filter_eq_self.mpr
    intro a ha
    exact decide_eq_true
      ((hexact (addr_taddr a)).mpr (List.mem_map_of_mem _ ha))
  have hlen : (masp_authorizers sh debited).length =
      (vin_addresses sh).length := by
    rw [hfilter]
    have hperm : (vin_addresses sh).Perm (debited.map addr_taddr) :=
      (List.perm_ext_iff_of_nodup (vin_addresses_nodup sh)
        (hnodup.map addr_taddr_inj)).mpr hexact
    rw [hperm.length_eq, List.length_map]
  have h := shielded_ok_shape env ctx r debited tx_data sh hget hh hu hlen
  rw [hfilter] at h
  exact h

/-- Witness for C2 at a concrete input: `exA` and `exB` were debited and
are exactly the vin addresses; the call succeeds and pushes the section
reference followed by the two authorizer actions. -/
theorem apply_shielded_transfer_exact_vin_succeeds_witness :
    apply_shielded_transfer exEnv exCtx 7 [exA, exB] exTx =
      ({ exCtx with
          actions := exCtx.actions ++
            Action.masp (.maspSectionRef 7) ::
              [exA, exB].map
                (fun a => Action.masp (.maspAuthorizer a)) },
       .ok ()) :=
  apply_shielded_transfer_exact_vin_succeeds exEnv exCtx 7 [exA, exB]
    exTx exShielded (by decide) rfl rfl (by decide)
    (by
      intro t
      rw [show vin_addresses exShielded = [exA, exB].map addr_taddr from
        by decide])

/-! ## Claim C9 -/

/-- C9: the reconciliation is one-directional — a debited account whose
pool address is not among the vin addresses is filtered out of the
authorizers (so it never fails the check and gets no authorizer action);
with no transparent bundle the vin set is empty and the call succeeds
pushing only the section reference, for every debited-accounts set. -/
theorem apply_shielded_transfer_one_directional (env : Env) (ctx : Ctx)
    (r : MaspTxId) (debited : List Address) (tx_data : BatchedTx)
    (sh : ShieldedPayload)
    (hget : tx_data.tx.get_masp_section r = some sh)
    (hh : env.handle_masp_tx sh = .ok ())
    (hu : env.update_masp_note_commitment_tree sh = .ok ()) :
    (∀ a, addr_taddr a ∉ vin_addresses sh →
      a ∉ masp_authorizers sh debited) ∧
    (sh.transparent_bundle = none →
      vin_addresses sh = [] ∧
      apply_shielded_transfer env ctx r debited tx_data =
        ({ ctx with
            actions := ctx.actions ++
              [Action.masp (.maspSectionRef r)] },
         .ok ())) := by
  constructor
  · intro a hnot hmem
    exact hnot (mem_masp_authorizers.mp hmem).2
  · intro hb
    have hvin : vin_addresses sh = [] := by
      unfold vin_addresses
      rw [hb]
    have hfilter : masp_authorizers sh debited = [] := by
      unfold masp_authorizers
      apply List.filter_eq_nil_iff.mpr
      intro a _
      simp [hvin]
    have hlen : (masp_authorizers sh debited).length =
        (vin_addresses sh).length := by
      rw [hfilter, hvin]
      rfl
    have h := shielded_ok_shape env ctx r debited tx_data sh hget hh hu
      hlen
    rw [hfilter] at h
    exact ⟨hvin, by simpa using h⟩

/-- Witness for C9 at a concrete input: section 8 has no transparent
bundle; with two debited accounts the call succeeds, no account is an
authorizer, and only the section reference is pushed. -/
theorem apply_shielded_transfer_one_directional_witness :
    exC ∉ masp_authorizers exShieldedNoBundle [exA, exB] ∧
    vin_addresses exShieldedNoBundle = [] ∧
    apply_shielded_transfer exEnv exCtx 8 [exA, exB] exTx =
      ({ exCtx with
          actions := exCtx.actions ++
            [Action.masp (.maspSectionRef 8)] },
       .ok ()) := by
  obtain ⟨h1, h2⟩ := apply_shielded_transfer_one_directional exEnv exCtx
    8 [exA, exB] exTx exShieldedNoBundle (by decide) rfl rfl
  obtain ⟨h3, h4⟩ := h2 rfl
  exact ⟨h1 exC (by decide), h3, h4⟩

/-! ## Verifier-registry lemmas -/

theorem insert_verifier_mem_self (ctx : Ctx) (a : Address) :
    a ∈ (ctx.insert_verifier a).verifiers := by
  unfold Ctx.insert_verifier
  split
  · assumption
  · simp

theorem insert_verifier_mem_mono (ctx : Ctx) (a b : Address)
    (h : a ∈ ctx.verifiers) : a ∈ (ctx.insert_verifier b).verifiers := by
  unfold Ctx.insert_verifier
  split
  · exact h
  · simp [h]

theorem insert_verifier_fields (ctx : Ctx) (a : Address) :
    (ctx.insert_verifier a).balances = ctx.balances ∧
    (ctx.insert_verifier a).actions = ctx.actions ∧
    (ctx.insert_verifier a).events = ctx.events ∧
    (ctx.insert_verifier a).sentinel_calls = ctx.sentinel_calls := by
  unfold Ctx.insert_verifier
  split <;> simp

/-! ## Claim C5 -/

/-- C5: `multi_transfer` applies the transparent part first (when
present) and threads its debited-accounts result (the empty set when
absent) into the shielded application (when referenced); a failing
transparent part short-circuits before any shielded application, and the
shielded leg always runs on the post-transparent context. -/
theorem multi_transfer_sequencing (env : Env) (ctx : Ctx)
    (transfers : Transfer) (tx_data : BatchedTx) :
    (transfers.transparent_part = none →
      transfers.shielded_section_hash = none →
      multi_transfer env ctx transfers tx_data = (ctx, .ok ()))
    ∧ (∀ r c res, transfers.transparent_part = none →
        transfers.shielded_section_hash = some r →
        apply_shielded_transfer env ctx r [] tx_data = (c, res) →
        multi_transfer env ctx transfers tx_data =
          (c, match res with
              | .error e =>
                .error (.wrapErr "Shielded token transfer failed" e)
              | .ok _ => .ok ()))
    ∧ (∀ tp ctx1 debited, transfers.transparent_part = some tp →
        apply_transparent_transfers ctx tp = (ctx1, .ok debited) →
        transfers.shielded_section_hash = none →
        multi_transfer env ctx transfers tx_data = (ctx1, .ok ()))
    ∧ (∀ tp ctx1 debited r c res,
        transfers.transparent_part = some tp →
        apply_transparent_transfers ctx tp = (ctx1, .ok debited) →
        transfers.shielded_section_hash = some r →
        apply_shielded_transfer env ctx1 r debited tx_data = (c, res) →
        multi_transfer env ctx transfers tx_data =
          (c, match res with
              | .error e =>
                .error (.wrapErr "Shielded token transfer failed" e)
              | .ok _ => .ok ()))
    ∧ (∀ tp ctx1 e, transfers.transparent_part = some tp →
        apply_transparent_transfers ctx tp = (ctx1, .error e) →
        multi_transfer env ctx transfers tx_data =
          (ctx1, .error (.wrapErr "Transparent token transfer failed" e))) := by
  refine ⟨?_, ?_, ?_, ?_, ?_⟩
  · intro htp hsh
    unfold multi_transfer
    rw [htp]
    simp only [hsh]
  · intro r c res htp hsh happ
    unfold multi_transfer
    rw [htp]
    simp only [hsh, happ]
    cases res <;> rfl
  · intro tp ctx1 debited htp happ hsh
    unfold multi_transfer
    rw [htp]
    simp only [happ, hsh]
  · intro tp ctx1 debited r c res htp happ hsh hshres
    unfold multi_transfer
    rw [htp]
    simp only [happ, hsh, hshres]
    cases res <;> rfl
  · intro tp ctx1 e htp happ
    unfold multi_transfer
    rw [htp]
    simp only [happ]

/-- Witness for C5 at a concrete input: no transparent part and a
reference to section 8 — the orchestrator returns exactly the shielded
application on the original context with the empty debited set. -/
theorem multi_transfer_sequencing_witness :
    multi_transfer exEnv exCtx ⟨[], [], some 8⟩ exTx =
      ((apply_shielded_transfer exEnv exCtx 8 [] exTx).1, .ok ()) := by
  have h := (multi_transfer_sequencing exEnv exCtx ⟨[], [], some 8⟩
    exTx).2.1 8 (apply_shielded_transfer exEnv exCtx 8 [] exTx).1
    (.ok ()) rfl rfl ?_
  · exact h
  · have hsnd : (apply_shielded_transfer exEnv exCtx 8 [] exTx).2 =
      .ok () := rfl
    rw [← hsnd]

/-! ## Claim C6 -/

/-- Example transfer descriptor overdrawing the balance of `exA`. -/
def exOverdraw : Transfer := ⟨canonMap [((exA, exTok), 300)], [], none⟩

/-- Counterexample to C6 as stated: at a concrete input where the balance
ledger fails with insufficient balance, `multi_transfer` does NOT
propagate the error unwrapped — the error it returns carries the added
stage context "Transparent token transfer failed". -/
theorem multi_transfer_wraps_ledger_error_cex :
    ledger_multi_transfer exCtx.balances exOverdraw.sources
        exOverdraw.targets =
      .error (.simpleMessage "insufficient balance") ∧
    (multi_transfer exEnv exCtx exOverdraw exTx).2 =
      .error (.wrapErr "Transparent token transfer failed"
        (.simpleMessage "insufficient balance")) ∧
    (multi_transfer exEnv exCtx exOverdraw exTx).2 ≠
      .error (.simpleMessage "insufficient balance") := by
  refine ⟨rfl, rfl, fun h => ?_⟩
  exact Err.noConfusion (Except.error.inj h)

/-- C6 amended: `apply_transparent_transfers` itself propagates the
ledger's insufficient-balance/overflow error unwrapped, and
`multi_transfer` propagates it wrapped with exactly one layer of stage
context ("Transparent token transfer failed"). -/
theorem multi_transfer_wraps_transparent_error (env : Env) (ctx : Ctx)
    (transfers : Transfer) (tx_data : BatchedTx)
    (tp : TransparentTransfersRef) (e : Err)
    (htp : transfers.transparent_part = some tp)
    (hledger : ledger_multi_transfer ctx.balances tp.sources tp.targets =
      .error e) :
    apply_transparent_transfers ctx tp = (ctx, .error e) ∧
    multi_transfer env ctx transfers tx_data =
      (ctx, .error (.wrapErr "Transparent token transfer failed" e)) := by
  have happ : apply_transparent_transfers ctx tp = (ctx, .error e) := by
    unfold apply_transparent_transfers
    simp only [hledger]
  refine ⟨happ, ?_⟩
  unfold multi_transfer
  rw [htp]
  simp only [happ]

/-- Witness for the amended C6 at a concrete input: overdrawing `exA`
makes the ledger report insufficient balance; the transparent applier
returns it as is and the orchestrator returns it wrapped once. -/
theorem multi_transfer_wraps_transparent_error_witness :
    apply_transparent_transfers exCtx
        ⟨exOverdraw.sources, exOverdraw.targets⟩ =
      (exCtx, .error (.simpleMessage "insufficient balance")) ∧
    multi_transfer exEnv exCtx exOverdraw exTx =
      (exCtx, .error (.wrapErr "Transparent token transfer failed"
        (.simpleMessage "insufficient balance"))) :=
  multi_transfer_wraps_transparent_error exEnv exCtx exOverdraw exTx
    ⟨exOverdraw.sources, exOverdraw.targets⟩
    (.simpleMessage "insufficient balance") rfl rfl

/-! ## Claim C7 -/

/-- Counterexample to C7 as stated: at a concrete input (pre balances
100 and 5, amount 30) the single emitted event's numeric payload is the
amount 30 and the post balances 70 and 35 — the pre-transfer balances
100 and 5 appear nowhere in it, because the source reads both balances
only after the debit/credit. -/
theorem transfer_event_lacks_pre_balances_cex :
    (transfer exCtx exA exB exTok 30).2 = .ok () ∧
    (transfer exCtx exA exB exTok 30).1.events =
      [{ descriptor := "transfer-from-wasm", level := .tx,
         operation := .transferSingle (.internal exA) (.internal exB)
           exTok 30 70 (some 35) }] ∧
    read_balance exCtx exTok exA = 100 ∧
    read_balance exCtx exTok exB = 5 ∧
    (∀ n ∈ [30, 70, 35], n ≠ 100 ∧ n ≠ 5) := by
  refine ⟨rfl, rfl, rfl, rfl, by decide⟩

/-- C7 amended: a successful single-pair transfer registers source and
destination (and an internal token) as verifiers, performs the single
debit/credit, and emits exactly one token event carrying the transferred
amount and the post-transfer balances of both parties. -/
theorem transfer_success_effects (ctx : Ctx) (src dest token : Address)
    (amount : Nat) (b : Balances)
    (hledger : ledger_transfer ctx.balances token src dest amount =
      .ok b) :
    (transfer ctx src dest token amount).2 = .ok () ∧
    src ∈ (transfer ctx src dest token amount).1.verifiers ∧
    dest ∈ (transfer ctx src dest token amount).1.verifiers ∧
    (token.is_internal = true →
      token ∈ (transfer ctx src dest token amount).1.verifiers) ∧
    (transfer ctx src dest token amount).1.balances = b ∧
    (transfer ctx src dest token amount).1.actions = ctx.actions ∧
    (transfer ctx src dest token amount).1.events = ctx.events ++
      [{ descriptor := "transfer-from-wasm", level := .tx,
         operation := .transferSingle (.internal src) (.internal dest)
           token amount (b token src) (some (b token dest)) }] ∧
    (src ≠ dest → b token src = ctx.balances token src - amount ∧
      b token dest = ctx.balances token dest + amount) := by
  have hbalv : ∀ (c : Ctx) (a : Address),
      (c.insert_verifier a).balances = c.balances :=
    fun c a => (insert_verifier_fields c a).1
  have hactv : ∀ (c : Ctx) (a : Address),
      (c.insert_verifier a).actions = c.actions :=
    fun c a => (insert_verifier_fields c a).2.1
  have hevtv : ∀ (c : Ctx) (a : Address),
      (c.insert_verifier a).events = c.events :=
    fun c a => (insert_verifier_fields c a).2.2.1
  have hshape : transfer ctx src dest token amount =
      ({ (if token.is_internal then
            ((ctx.insert_verifier src).insert_verifier
              dest).insert_verifier token
          else
            (ctx.insert_verifier src).insert_verifier dest) with
          balances := b }.emit
        { descriptor := "transfer-from-wasm", level := .tx,
          operation := .transferSingle (.internal src) (.internal dest)
            token amount (b token src) (some (b token dest)) },
       .ok ()) := by
    unfold transfer
    by_cases hint : token.is_internal = true
    · simp only [hint, if_true, hbalv, hledger, read_balance]
    · simp [hint, hbalv, hledger, read_balance]
  have hdc : src ≠ dest →
      b token src = ctx.balances token src - amount ∧
      b token dest = ctx.balances token dest + amount := by
    intro hsd
    have hl := hledger
    simp only [ledger_transfer] at hl
    by_cases h1 : ctx.balances token src < amount
    · rw [if_pos h1] at hl
      simp at hl
    · rw [if_neg h1] at hl
      by_cases h2 : amountMax <
          writeBalance ctx.balances token src
            (ctx.balances token src - amount) token dest + amount
      · rw [if_pos h2] at hl
        simp at hl
      · rw [if_neg h2] at hl
        injection hl with hb
        have hds : dest ≠ src := fun h => hsd h.symm
        constructor
        · rw [← hb]
          simp [writeBalance, hsd, hds]
        · rw [← hb]
          simp [writeBalance, hsd, hds]
  rw [hshape]
  refine ⟨rfl, ?_, ?_, ?_, rfl, ?_, ?_, hdc⟩
  · by_cases hint : token.is_internal = true
    · simp only [hint, if_true, Ctx.emit]
      exact insert_verifier_mem_mono _ _ _
        (insert_verifier_mem_mono _ _ _ (insert_verifier_mem_self _ _))
    · simp only [Ctx.emit, if_neg hint]
      exact insert_verifier_mem_mono _ _ _ (insert_verifier_mem_self _ _)
  · by_cases hint : token.is_internal = true
    · simp only [hint, if_true, Ctx.emit]
      exact insert_verifier_mem_mono _ _ _ (insert_verifier_mem_self _ _)
    · simp only [Ctx.emit, if_neg hint]
      exact insert_verifier_mem_self _ _
  · intro hint
    simp only [hint, if_true, Ctx.emit]
    exact insert_verifier_mem_self _ _
  · by_cases hint : token.is_internal = true
    · simp [hint, Ctx.emit, hactv]
    · simp [Ctx.emit, if_neg hint, hactv]
  · by_cases hint : token.is_internal = true
    · simp [hint, Ctx.emit, hevtv]
    · simp [Ctx.emit, if_neg hint, hevtv]

/-- Witness for the amended C7 at a concrete input. -/
theorem transfer_success_effects_witness :
    ledger_transfer exCtx.balances exTok exA exB 30 =
      .ok (writeBalance
        (writeBalance exCtx.balances exTok exA 70) exTok exB 35) ∧
    (transfer exCtx exA exB exTok 30).2 = .ok () ∧
    exA ∈ (transfer exCtx exA exB exTok 30).1.verifiers ∧
    exB ∈ (transfer exCtx exA exB exTok 30).1.verifiers ∧
    exTok ∈ (transfer exCtx exA exB exTok 30).1.verifiers := by
  have hledger : ledger_transfer exCtx.balances exTok exA exB 30 =
      .ok (writeBalance
        (writeBalance exCtx.balances exTok exA 70) exTok exB 35) := by
    unfold ledger_transfer
    norm_num [exCtx, exBal, exTok, exA, exB, amountMax, writeBalance]
  have h := transfer_success_effects exCtx exA exB exTok 30
    (writeBalance (writeBalance exCtx.balances exTok exA 70) exTok exB 35)
    hledger
  exact ⟨hledger, h.1, h.2.1, h.2.2.1, h.2.2.2.1 rfl⟩

/-! ## Order and injectivity lemmas for the map model -/

theorem pcLt_irrefl (p : Nat × Nat) : ¬PcLt p p := by
  obtain ⟨p1, p2⟩ := p
  simp [PcLt]

theorem pcLt_asymm {p q : Nat × Nat} (h : PcLt p q) : ¬PcLt q p := by
  obtain ⟨p1, p2⟩ := p
  obtain ⟨q1, q2⟩ := q
  simp only [PcLt] at h ⊢
  omega

theorem pcLt_trans {p q r : Nat × Nat} (h1 : PcLt p q) (h2 : PcLt q r) :
    PcLt p r := by
  obtain ⟨p1, p2⟩ := p
  obtain ⟨q1, q2⟩ := q
  obtain ⟨r1, r2⟩ := r
  simp only [PcLt] at h1 h2 ⊢
  omega

theorem pcLt_trichotomy (p q : Nat × Nat) :
    PcLt p q ∨ p = q ∨ PcLt q p := by
  obtain ⟨p1, p2⟩ := p
  obtain ⟨q1, q2⟩ := q
  simp only [PcLt, Prod.mk.injEq]
  omega

theorem pcLt_ne {p q : Nat × Nat} (h : PcLt p q) : p ≠ q := by
  intro heq
  exact pcLt_irrefl q (heq ▸ h)

theorem pairCode_inj : Function.Injective pairCode := by
  intro a b h
  obtain ⟨a1, a2⟩ := a
  obtain ⟨b1, b2⟩ := b
  simp only [pairCode, Prod.mk.injEq] at h
  exact Prod.ext (address_code_inj h.1) (address_code_inj h.2)

theorem userAccount_code_inj : Function.Injective UserAccount.code := by
  intro a b h
  cases a with
  | internal x =>
    cases b with
    | internal y =>
      simp only [UserAccount.code] at h
      rw [address_code_inj h]

theorem ekeyCode_inj : Function.Injective ekeyCode := by
  intro a b h
  obtain ⟨a1, a2⟩ := a
  obtain ⟨b1, b2⟩ := b
  simp only [ekeyCode, Prod.mk.injEq] at h
  exact Prod.ext (userAccount_code_inj h.1) (address_code_inj h.2)

/-! ## Ordered-insertion lemmas -/

section MInsert

variable {K V : Type} (key : K → Nat × Nat) (comb : V → V → V)

theorem minsert_nil (k : K) (v : V) :
    minsert key comb [] k v = [(k, v)] := rfl

theorem minsert_cons_lt {e : K × V} {rest : List (K × V)} {k : K} {v : V}
    (h : PcLt (key k) (key e.1)) :
    minsert key comb (e :: rest) k v = (k, v) :: e :: rest := by
  unfold minsert
  rw [if_pos h]

theorem minsert_cons_eq {e : K × V} {rest : List (K × V)} {k : K} {v : V}
    (h1 : ¬PcLt (key k) (key e.1)) (h2 : key k = key e.1) :
    minsert key comb (e :: rest) k v = (e.1, comb e.2 v) :: rest := by
  unfold minsert
  rw [if_neg h1, if_pos h2]

theorem minsert_cons_gt {e : K × V} {rest : List (K × V)} {k : K} {v : V}
    (h1 : ¬PcLt (key k) (key e.1)) (h2 : key k ≠ key e.1) :
    minsert key comb (e :: rest) k v =
      e :: minsert key comb rest k v := by
  simp only [minsert]
  rw [if_neg h1, if_neg h2]

theorem mem_minsert_cases {m : List (K × V)} {k : K} {v : V} {x : K × V}
    (hx : x ∈ minsert key comb m k v) :
    x ∈ m ∨ x = (k, v) ∨
      ∃ e ∈ m, x = (e.1, comb e.2 v) ∧ key e.1 = key k := by
  induction m with
  | nil =>
    rw [minsert_nil] at hx
    right
    left
    simpa using hx
  | cons e rest ih =>
    by_cases h1 : PcLt (key k) (key e.1)
    · rw [minsert_cons_lt key comb h1] at hx
      rcases List.mem_cons.mp hx with h | h
      · right
        left
        exact h
      · left
        exact h
    · by_cases h2 : key k = key e.1
      · rw [minsert_cons_eq key comb h1 h2] at hx
        rcases List.mem_cons.mp hx with h | h
        · right
          right
          exact ⟨e, List.mem_cons_self e rest, h, h2.symm⟩
        · left
          exact List.mem_cons_of_mem e h
      · rw [minsert_cons_gt key comb h1 h2] at hx
        rcases List.mem_cons.mp hx with h | h
        · left
          exact h ▸ List.mem_cons_self e rest
        · rcases ih h with h3 | h3 | ⟨e2, he2, h4, h5⟩
          · left
            exact List.mem_cons_of_mem e h3
          · right
            left
            exact h3
          · right
            right
            exact ⟨e2, List.mem_cons_of_mem e he2, h4, h5⟩

theorem mem_minsert_key {m : List (K × V)} {k : K} {v : V} {x : K × V}
    (hx : x ∈ minsert key comb m k v) :
    x ∈ m ∨ key x.1 = key k := by
  rcases mem_minsert_cases key comb hx with h | h | ⟨e, _, h4, h5⟩
  · left
    exact h
  · right
    rw [h]
  · right
    rw [h4]
    exact h5

theorem mem_minsert_of_ne {m : List (K × V)} {k : K} {v : V} {x : K × V}
    (hx : x ∈ m) (hne : key x.1 ≠ key k) :
    x ∈ minsert key comb m k v := by
  induction m with
  | nil => cases hx
  | cons e rest ih =>
    by_cases h1 : PcLt (key k) (key e.1)
    · rw [minsert_cons_lt key comb h1]
      exact List.mem_cons_of_mem _ hx
    · by_cases h2 : key k = key e.1
      · rw [minsert_cons_eq key comb h1 h2]
        rcases List.mem_cons.mp hx with h | h
        · exact absurd (h ▸ h2.symm : key x.1 = key k) hne
        · exact List.mem_cons_of_mem _ h
      · rw [minsert_cons_gt key comb h1 h2]
        rcases List.mem_cons.mp hx with h | h
        · exact h ▸ List.mem_cons_self _ _
        · exact List.mem_cons_of_mem _ (ih h)

/-- The `BTreeMap` sortedness invariant: keys strictly increasing. -/
def KeySorted (m : List (K × V)) : Prop :=
  m.Pairwise (fun x y => PcLt (key x.1) (key y.1))

theorem keySorted_nil : KeySorted key ([] : List (K × V)) :=
  List.Pairwise.nil

theorem minsert_keySorted {m : List (K × V)} {k : K} {v : V}
    (hs : KeySorted key m) : KeySorted key (minsert key comb m k v) := by
  induction m with
  | nil =>
    rw [minsert_nil]
    exact List.pairwise_singleton _ _
  | cons e rest ih =>
    rcases List.pairwise_cons.mp hs with ⟨he, hrest⟩
    by_cases h1 : PcLt (key k) (key e.1)
    · rw [minsert_cons_lt key comb h1]
      refine List.pairwise_cons.mpr ⟨?_, hs⟩
      intro x hx
      rcases List.mem_cons.mp hx with h | h
      · rw [h]
        exact h1
      · exact pcLt_trans h1 (he x h)
    · by_cases h2 : key k = key e.1
      · rw [minsert_cons_eq key comb h1 h2]
        exact List.pairwise_cons.mpr ⟨he, hrest⟩
      · rw [minsert_cons_gt key comb h1 h2]
        have hgt : PcLt (key e.1) (key k) := by
          rcases pcLt_trichotomy (key k) (key e.1) with h | h | h
          · exact absurd h h1
          · exact absurd h h2
          · exact h
        refine List.pairwise_cons.mpr ⟨?_, ih hrest⟩
        intro x hx
        rcases mem_minsert_key key comb hx with h | h
        · exact he x h
        · rw [h]
          exact hgt

theorem minsert_minsert_comm
    (hinj : ∀ a b : K, key a = key b → a = b)
    (hcomm : ∀ a b : V, comb a b = comb b a)
    (hrc : ∀ x a b : V, comb (comb x a) b = comb (comb x b) a) :
    ∀ (m : List (K × V)) (k1 : K) (v1 : V) (k2 : K) (v2 : V),
      minsert key comb (minsert key comb m k1 v1) k2 v2 =
        minsert key comb (minsert key comb m k2 v2) k1 v1 := by
  intro m
  induction m with
  | nil =>
    intro k1 v1 k2 v2
    rcases pcLt_trichotomy (key k1) (key k2) with h | h | h
    · simp only [minsert_nil,
        minsert_cons_gt key comb (e := (k1, v1)) (pcLt_asymm h)
          (Ne.symm (pcLt_ne h)),
        minsert_cons_lt key comb (e := (k2, v2)) h]
    · have hk : k1 = k2 := hinj _ _ h
      subst hk
      simp only [minsert_nil,
        minsert_cons_eq key comb (e := (k1, v1)) (pcLt_irrefl _) rfl,
        minsert_cons_eq key comb (e := (k1, v2)) (pcLt_irrefl _) rfl,
        hcomm v1 v2]
    · simp only [minsert_nil,
        minsert_cons_gt key comb (e := (k2, v2)) (pcLt_asymm h)
          (Ne.symm (pcLt_ne h)),
        minsert_cons_lt key comb (e := (k1, v1)) h]
  | cons e rest ih =>
    intro k1 v1 k2 v2
    rcases pcLt_trichotomy (key k1) (key e.1) with hA | hB | hC
    · rcases pcLt_trichotomy (key k2) (key e.1) with hD | hE | hF
      · rcases pcLt_trichotomy (key k1) (key k2) with h | h | h
        · simp only [minsert_cons_lt key comb hA,
            minsert_cons_lt key comb hD,
            minsert_cons_gt key comb (e := (k1, v1)) (pcLt_asymm h)
              (Ne.symm (pcLt_ne h)),
            minsert_cons_lt key comb (e := (k2, v2)) h]
        · have hk : k1 = k2 := hinj _ _ h
          subst hk
          simp only [minsert_cons_lt key comb hA,
            minsert_cons_eq key comb (e := (k1, v1)) (pcLt_irrefl _) rfl,
            minsert_cons_eq key comb (e := (k1, v2)) (pcLt_irrefl _) rfl,
            hcomm v1 v2]
        · simp only [minsert_cons_lt key comb hA,
            minsert_cons_lt key comb hD,
            minsert_cons_gt key comb (e := (k2, v2)) (pcLt_asymm h)
              (Ne.symm (pcLt_ne h)),
            minsert_cons_lt key comb (e := (k1, v1)) h]
      · have hA2 : PcLt (key k1) (key k2) := by
          rw [hE]
          exact hA
        have hn2 : ¬PcLt (key k2) (key e.1) := by
          rw [hE]
          exact pcLt_irrefl _
        simp only [minsert_cons_lt key comb hA,
          minsert_cons_eq key comb hn2 hE,
          minsert_cons_gt key comb (e := (k1, v1)) (pcLt_asymm hA2)
            (Ne.symm (pcLt_ne hA2)),
          minsert_cons_lt key comb (e := (e.1, comb e.2 v2)) hA]
      · have h12 : PcLt (key k1) (key k2) := pcLt_trans hA hF
        simp only [minsert_cons_lt key comb hA,
          minsert_cons_gt key comb (pcLt_asymm hF)
            (Ne.symm (pcLt_ne hF)),
          minsert_cons_gt key comb (e := (k1, v1)) (pcLt_asymm h12)
            (Ne.symm (pcLt_ne h12))]
    · rcases pcLt_trichotomy (key k2) (key e.1) with hD | hE | hF
      · have h21 : PcLt (key k2) (key k1) := by
          rw [hB]
          exact hD
        have hn1 : ¬PcLt (key k1) (key e.1) := by
          rw [hB]
          exact pcLt_irrefl _
        simp only [minsert_cons_eq key comb hn1 hB,
          minsert_cons_lt key comb hD,
          minsert_cons_lt key comb (e := (e.1, comb e.2 v1)) hD,
          minsert_cons_gt key comb (e := (k2, v2)) (pcLt_asymm h21)
            (Ne.symm (pcLt_ne h21))]
      · have hn1 : ¬PcLt (key k1) (key e.1) := by
          rw [hB]
          exact pcLt_irrefl _
        have hn2 : ¬PcLt (key k2) (key e.1) := by
          rw [hE]
          exact pcLt_irrefl _
        simp only [minsert_cons_eq key comb hn1 hB,
          minsert_cons_eq key comb hn2 hE,
          minsert_cons_eq key comb (e := (e.1, comb e.2 v1)) hn2 hE,
          minsert_cons_eq key comb (e := (e.1, comb e.2 v2)) hn1 hB,
          hrc e.2 v1 v2]
      · have hn1 : ¬PcLt (key k1) (key e.1) := by
          rw [hB]
          exact pcLt_irrefl _
        simp only [minsert_cons_eq key comb hn1 hB,
          minsert_cons_gt key comb (pcLt_asymm hF)
            (Ne.symm (pcLt_ne hF)),
          minsert_cons_gt key comb (e := (e.1, comb e.2 v1))
            (pcLt_asymm hF) (Ne.symm (pcLt_ne hF)),
          minsert_cons_eq key comb (e := e) hn1 hB]
    · rcases pcLt_trichotomy (key k2) (key e.1) with hD | hE | hF
      · have h21 : PcLt (key k2) (key k1) := pcLt_trans hD hC
        simp only [minsert_cons_gt key comb (pcLt_asymm hC)
            (Ne.symm (pcLt_ne hC)),
          minsert_cons_lt key comb hD,
          minsert_cons_gt key comb (e := (k2, v2)) (pcLt_asymm h21)
            (Ne.symm (pcLt_ne h21))]
      · have hn2 : ¬PcLt (key k2) (key e.1) := by
          rw [hE]
          exact pcLt_irrefl _
        simp only [minsert_cons_gt key comb (pcLt_asymm hC)
            (Ne.symm (pcLt_ne hC)),
          minsert_cons_eq key comb hn2 hE,
          minsert_cons_eq key comb (e := e) hn2 hE,
          minsert_cons_gt key comb (e := (e.1, comb e.2 v2))
            (pcLt_asymm hC) (Ne.symm (pcLt_ne hC))]
      · simp only [minsert_cons_gt key comb (pcLt_asymm hC)
            (Ne.symm (pcLt_ne hC)),
          minsert_cons_gt key comb (pcLt_asymm hF)
            (Ne.symm (pcLt_ne hF)),
          ih k1 v1 k2 v2]

theorem self_mem_minsert_ow (hinj : ∀ a b : K, key a = key b → a = b) :
    ∀ (m : List (K × V)) (k : K) (v : V),
      (k, v) ∈ minsert key (fun _ w => w) m k v := by
  intro m
  induction m with
  | nil =>
    intro k v
    rw [minsert_nil]
    exact List.mem_singleton.mpr rfl
  | cons e rest ih =>
    intro k v
    by_cases h1 : PcLt (key k) (key e.1)
    · rw [minsert_cons_lt key _ h1]
      exact List.mem_cons_self _ _
    · by_cases h2 : key k = key e.1
      · rw [minsert_cons_eq key _ h1 h2]
        have he1 : e.1 = k := hinj _ _ h2.symm
        rw [he1]
        exact List.mem_cons_self _ _
      · rw [minsert_cons_gt key _ h1 h2]
        exact List.mem_cons_of_mem _ (ih k v)

theorem mem_minsert_ow_fixed (hinj : ∀ a b : K, key a = key b → a = b)
    (f : K → V) {m : List (K × V)} {k k' : K}
    (hx : (k', f k') ∈ m) :
    (k', f k') ∈ minsert key (fun _ w => w) m k (f k) := by
  by_cases h : key k' = key k
  · have hk : k' = k := hinj _ _ h
    subst hk
    exact self_mem_minsert_ow key hinj m k' (f k')
  · exact mem_minsert_of_ne key _ hx h

theorem minsert_ow_inv (hinj : ∀ a b : K, key a = key b → a = b)
    (f : K → V) {m : List (K × V)} {k : K}
    (hinv : ∀ x ∈ m, x.2 = f x.1) :
    ∀ x ∈ minsert key (fun _ w => w) m k (f k), x.2 = f x.1 := by
  intro x hx
  rcases mem_minsert_cases key _ hx with h | h | ⟨e, _, hxe, hk⟩
  · exact hinv x h
  · rw [h]
  · have he1 : e.1 = k := hinj _ _ hk
    rw [hxe]
    show f k = f e.1
    rw [he1]

end MInsert

/-! ## Canonical-map and per-leg loop lemmas -/

/-- The account address carried by an event-map account wrapper. -/
def UserAccount.addr : UserAccount → Address
  | .internal a => a

theorem foldl_minsertSum_perm
    {l1 l2 : List ((Address × Address) × Nat)} (h : l1.Perm l2) :
    ∀ init : SrcMap,
      l1.foldl (fun m e => minsert pairCode (· + ·) m e.1 e.2) init =
        l2.foldl (fun m e => minsert pairCode (· + ·) m e.1 e.2) init := by
  induction h with
  | nil =>
    intro init
    rfl
  | cons x h ih =>
    intro init
    simp only [List.foldl_cons]
    exact ih _
  | swap x y l =>
    intro init
    simp only [List.foldl_cons]
    rw [minsert_minsert_comm pairCode (· + ·)
      (fun a b hab => pairCode_inj hab) Nat.add_comm
      (fun a b c => by
        show a + b + c = a + c + b
        omega)]
  | trans h1 h2 ih1 ih2 =>
    intro init
    rw [ih1, ih2]

theorem canonMap_perm {l1 l2 : List ((Address × Address) × Nat)}
    (h : l1.Perm l2) : canonMap l1 = canonMap l2 :=
  foldl_minsertSum_perm h []

theorem insert_verifier_balances (c : Ctx) (a : Address) :
    (c.insert_verifier a).balances = c.balances :=
  (insert_verifier_fields c a).1

theorem insert_verifier_events (c : Ctx) (a : Address) :
    (c.insert_verifier a).events = c.events :=
  (insert_verifier_fields c a).2.2.1

/-- The verifier-insertion step at the head of the per-leg loop. -/
def legStepCtx (ctx : Ctx) (acc tok : Address) : Ctx :=
  if tok.is_internal then
    (ctx.insert_verifier acc).insert_verifier tok
  else ctx.insert_verifier acc

theorem legStepCtx_balances (ctx : Ctx) (acc tok : Address) :
    (legStepCtx ctx acc tok).balances = ctx.balances := by
  unfold legStepCtx
  by_cases hint : tok.is_internal = true
  · rw [if_pos hint, insert_verifier_balances, insert_verifier_balances]
  · rw [if_neg hint, insert_verifier_balances]

theorem legStepCtx_events (ctx : Ctx) (acc tok : Address) :
    (legStepCtx ctx acc tok).events = ctx.events := by
  unfold legStepCtx
  by_cases hint : tok.is_internal = true
  · rw [if_pos hint, insert_verifier_events, insert_verifier_events]
  · rw [if_neg hint, insert_verifier_events]

theorem legStepCtx_verifiers_mono (ctx : Ctx) (acc tok a : Address)
    (ha : a ∈ ctx.verifiers) : a ∈ (legStepCtx ctx acc tok).verifiers := by
  unfold legStepCtx
  by_cases hint : tok.is_internal = true
  · rw [if_pos hint]
    exact insert_verifier_mem_mono _ _ _ (insert_verifier_mem_mono _ _ _ ha)
  · rw [if_neg hint]
    exact insert_verifier_mem_mono _ _ _ ha

theorem procLeg_eq_legStep (ctx : Ctx) (emap pmap : EvtMap)
    (acc tok : Address) (amount : Nat) (rest : SrcMap) :
    procLeg ctx emap pmap (((acc, tok), amount) :: rest) =
      procLeg (legStepCtx ctx acc tok)
        (minsert ekeyCode (fun _ v => v) emap
          (.internal acc, tok) amount)
        (minsert ekeyCode (fun _ v => v) pmap (.internal acc, tok)
          (read_balance (legStepCtx ctx acc tok) tok acc))
        rest := by
  simp only [procLeg, legStepCtx]

theorem procLeg_balances (entries : SrcMap) :
    ∀ ctx emap pmap,
      (procLeg ctx emap pmap entries).1.balances = ctx.balances := by
  induction entries with
  | nil =>
    intro ctx emap pmap
    rfl
  | cons e0 rest ih =>
    obtain ⟨⟨acc, tok⟩, amount⟩ := e0
    intro ctx emap pmap
    rw [procLeg_eq_legStep, ih, legStepCtx_balances]

theorem procLeg_events (entries : SrcMap) :
    ∀ ctx emap pmap,
      (procLeg ctx emap pmap entries).1.events = ctx.events := by
  induction entries with
  | nil =>
    intro ctx emap pmap
    rfl
  | cons e0 rest ih =>
    obtain ⟨⟨acc, tok⟩, amount⟩ := e0
    intro ctx emap pmap
    rw [procLeg_eq_legStep, ih, legStepCtx_events]

theorem procLeg_verifiers_mono (entries : SrcMap) :
    ∀ ctx emap pmap a, a ∈ ctx.verifiers →
      a ∈ (procLeg ctx emap pmap entries).1.verifiers := by
  induction entries with
  | nil =>
    intro ctx emap pmap a ha
    exact ha
  | cons e0 rest ih =>
    obtain ⟨⟨acc, tok⟩, amount⟩ := e0
    intro ctx emap pmap a ha
    rw [procLeg_eq_legStep]
    exact ih _ _ _ a (legStepCtx_verifiers_mono ctx acc tok a ha)

theorem procLeg_entry_verifiers (entries : SrcMap) :
    ∀ ctx emap pmap, ∀ e ∈ entries,
      e.1.1 ∈ (procLeg ctx emap pmap entries).1.verifiers ∧
      (e.1.2.is_internal = true →
        e.1.2 ∈ (procLeg ctx emap pmap entries).1.verifiers) := by
  induction entries with
  | nil =>
    intro ctx emap pmap e he
    cases he
  | cons e0 rest ih =>
    obtain ⟨⟨acc, tok⟩, amount⟩ := e0
    intro ctx emap pmap e he
    rcases List.mem_cons.mp he with heq | hm
    · subst heq
      rw [procLeg_eq_legStep]
      constructor
      · apply procLeg_verifiers_mono
        unfold legStepCtx
        by_cases hint : tok.is_internal = true
        · rw [if_pos hint]
          exact insert_verifier_mem_mono _ _ _
            (insert_verifier_mem_self _ _)
        · rw [if_neg hint]
          exact insert_verifier_mem_self _ _
      · intro hint
        apply procLeg_verifiers_mono
        unfold legStepCtx
        rw [if_pos hint]
        exact insert_verifier_mem_self _ _
    · rw [procLeg_eq_legStep]
      exact ih _ _ _ e hm

theorem procLeg_emap_persist (entries : SrcMap) :
    ∀ ctx emap pmap (x : EvtKey × Nat), x ∈ emap →
      (∀ e ∈ entries, ekeyCode x.1 ≠ pairCode e.1) →
      x ∈ (procLeg ctx emap pmap entries).2.1 := by
  induction entries with
  | nil =>
    intro ctx emap pmap x hx _
    exact hx
  | cons e0 rest ih =>
    obtain ⟨⟨acc, tok⟩, amount⟩ := e0
    intro ctx emap pmap x hx hne
    rw [procLeg_eq_legStep]
    apply ih
    · exact mem_minsert_of_ne ekeyCode _ hx
        (hne _ (List.mem_cons_self _ _))
    · intro e he
      exact hne e (List.mem_cons_of_mem _ he)

theorem procLeg_emap_mem (entries : SrcMap) :
    ∀ ctx emap pmap,
      (entries.map (fun e => pairCode e.1)).Nodup →
      ∀ e ∈ entries,
        ((UserAccount.internal e.1.1, e.1.2), e.2) ∈
          (procLeg ctx emap pmap entries).2.1 := by
  induction entries with
  | nil =>
    intro ctx emap pmap _ e he
    cases he
  | cons e0 rest ih =>
    obtain ⟨⟨acc, tok⟩, amount⟩ := e0
    intro ctx emap pmap hnd e he
    rw [List.map_cons, List.nodup_cons] at hnd
    rcases List.mem_cons.mp he with heq | hm
    · subst heq
      rw [procLeg_eq_legStep]
      apply procLeg_emap_persist
      · exact self_mem_minsert_ow ekeyCode
          (fun a b hab => ekeyCode_inj hab) emap _ _
      · intro e2 he2 hcontra
        apply hnd.1
        show pairCode (acc, tok) ∈ List.map (fun e => pairCode e.1) rest
        have hkey : pairCode (acc, tok) = pairCode e2.1 := hcontra
        rw [hkey]
        exact List.mem_map_of_mem _ he2
    · rw [procLeg_eq_legStep]
      exact ih _ _ _ hnd.2 e hm

theorem procLeg_pmap_inv (bal : Balances) (entries : SrcMap) :
    ∀ ctx emap pmap, ctx.balances = bal →
      (∀ x ∈ pmap, x.2 = bal x.1.2 x.1.1.addr) →
      ∀ x ∈ (procLeg ctx emap pmap entries).2.2,
        x.2 = bal x.1.2 x.1.1.addr := by
  induction entries with
  | nil =>
    intro ctx emap pmap _ hinv x hx
    exact hinv x hx
  | cons e0 rest ih =>
    obtain ⟨⟨acc, tok⟩, amount⟩ := e0
    intro ctx emap pmap hb hinv
    rw [procLeg_eq_legStep]
    apply ih
    · rw [legStepCtx_balances, hb]
    · have hval : read_balance (legStepCtx ctx acc tok) tok acc =
          bal tok acc := by
        simp only [read_balance, legStepCtx_balances, hb]
      rw [hval]
      exact minsert_ow_inv ekeyCode (fun a b hab => ekeyCode_inj hab)
        (fun k => bal k.2 k.1.addr) hinv


theorem procLeg_pmap_persist (bal : Balances) (entries : SrcMap) :
    ∀ ctx emap pmap (q : EvtKey), ctx.balances = bal →
      (q, bal q.2 q.1.addr) ∈ pmap →
      (q, bal q.2 q.1.addr) ∈ (procLeg ctx emap pmap entries).2.2 := by
  induction entries with
  | nil =>
    intro ctx emap pmap q _ hx
    exact hx
  | cons e0 rest ih =>
    obtain ⟨⟨acc, tok⟩, amount⟩ := e0
    intro ctx emap pmap q hb hx
    rw [procLeg_eq_legStep]
    apply ih
    · rw [legStepCtx_balances, hb]
    · have hval : read_balance (legStepCtx ctx acc tok) tok acc =
          bal tok acc := by
        simp only [read_balance, legStepCtx_balances, hb]
      rw [hval]
      exact mem_minsert_ow_fixed ekeyCode
        (fun a b hab => ekeyCode_inj hab) (fun k => bal k.2 k.1.addr) hx

theorem procLeg_pmap_mem (bal : Balances) (entries : SrcMap) :
    ∀ ctx emap pmap, ctx.balances = bal →
      ∀ e ∈ entries,
        ((UserAccount.internal e.1.1, e.1.2), bal e.1.2 e.1.1) ∈
          (procLeg ctx emap pmap entries).2.2 := by
  induction entries with
  | nil =>
    intro ctx emap pmap _ e he
    cases he
  | cons e0 rest ih =>
    obtain ⟨⟨acc, tok⟩, amount⟩ := e0
    intro ctx emap pmap hb e he
    rcases List.mem_cons.mp he with heq | hm
    · subst heq
      rw [procLeg_eq_legStep]
      apply procLeg_pmap_persist bal rest _ _ _
        (UserAccount.internal acc, tok)
      · rw [legStepCtx_balances, hb]
      · have hval : read_balance (legStepCtx ctx acc tok) tok acc =
            bal tok acc := by
          simp only [read_balance, legStepCtx_balances, hb]
        rw [hval]
        exact self_mem_minsert_ow ekeyCode
          (fun a b hab => ekeyCode_inj hab) pmap _ _
    · rw [procLeg_eq_legStep]
      exact ih _ _ _ (by rw [legStepCtx_balances, hb]) e hm

theorem procLeg_sorted (entries : SrcMap) :
    ∀ ctx emap pmap,
      KeySorted ekeyCode emap → KeySorted ekeyCode pmap →
      KeySorted ekeyCode (procLeg ctx emap pmap entries).2.1 ∧
      KeySorted ekeyCode (procLeg ctx emap pmap entries).2.2 := by
  induction entries with
  | nil =>
    intro ctx emap pmap hs1 hs2
    exact ⟨hs1, hs2⟩
  | cons e0 rest ih =>
    obtain ⟨⟨acc, tok⟩, amount⟩ := e0
    intro ctx emap pmap hs1 hs2
    rw [procLeg_eq_legStep]
    exact ih _ _ _ (minsert_keySorted ekeyCode _ hs1)
      (minsert_keySorted ekeyCode _ hs2)

/-! ## Shape of the transparent transfer applier -/

theorem emit_events (c : Ctx) (ev : TokenEvent) :
    (c.emit ev).events = c.events ++ [ev] := rfl

theorem emit_verifiers (c : Ctx) (ev : TokenEvent) :
    (c.emit ev).verifiers = c.verifiers := rfl

theorem emit_balances (c : Ctx) (ev : TokenEvent) :
    (c.emit ev).balances = c.balances := rfl

theorem apply_transparent_err_shape (ctx : Ctx)
    (transfers : TransparentTransfersRef) (e : Err)
    (hld : ledger_multi_transfer ctx.balances transfers.sources
      transfers.targets = .error e) :
    apply_transparent_transfers ctx transfers = (ctx, .error e) := by
  unfold apply_transparent_transfers
  simp only [hld]

theorem apply_transparent_ok_shape (ctx : Ctx)
    (transfers : TransparentTransfersRef) (b : Balances)
    (deb : List Address)
    (hld : ledger_multi_transfer ctx.balances transfers.sources
      transfers.targets = .ok (b, deb)) :
    apply_transparent_transfers ctx transfers =
      ((procLeg (procLeg { ctx with balances := b } [] []
            transfers.sources).1 []
          (procLeg { ctx with balances := b } [] []
            transfers.sources).2.2 transfers.targets).1.emit
        { descriptor := "transfer-from-wasm", level := .tx,
          operation := .transferMulti
            (procLeg { ctx with balances := b } [] []
              transfers.sources).2.1
            (procLeg (procLeg { ctx with balances := b } [] []
                transfers.sources).1 []
              (procLeg { ctx with balances := b } [] []
                transfers.sources).2.2 transfers.targets).2.1
            (procLeg (procLeg { ctx with balances := b } [] []
                transfers.sources).1 []
              (procLeg { ctx with balances := b } [] []
                transfers.sources).2.2 transfers.targets).2.2 },
       .ok deb) := by
  unfold apply_transparent_transfers
  simp only [hld]

/-! ## Claim C4 -/

/-- C4: for every (account, token, amount) entry among the sources and
targets — zero amounts included — a successful
`apply_transparent_transfers` registers the account (and an internal
token) as a verifier and includes the entry in the emitted event's
sources/targets mapping together with its post balance in the
post-balances mapping. -/
theorem apply_transparent_transfers_entries (ctx : Ctx)
    (transfers : TransparentTransfersRef) (ctx' : Ctx)
    (debited : List Address)
    (hks : (transfers.sources.map (fun e => pairCode e.1)).Nodup)
    (hkt : (transfers.targets.map (fun e => pairCode e.1)).Nodup)
    (happ : apply_transparent_transfers ctx transfers =
      (ctx', .ok debited)) :
    ∃ S T P, ctx'.events = ctx.events ++
        [{ descriptor := "transfer-from-wasm", level := .tx,
           operation := .transferMulti S T P }] ∧
      (∀ e ∈ transfers.sources,
        e.1.1 ∈ ctx'.verifiers ∧
        (e.1.2.is_internal = true → e.1.2 ∈ ctx'.verifiers) ∧
        ((UserAccount.internal e.1.1, e.1.2), e.2) ∈ S ∧
        ((UserAccount.internal e.1.1, e.1.2),
          ctx'.balances e.1.2 e.1.1) ∈ P) ∧
      (∀ e ∈ transfers.targets,
        e.1.1 ∈ ctx'.verifiers ∧
        (e.1.2.is_internal = true → e.1.2 ∈ ctx'.verifiers) ∧
        ((UserAccount.internal e.1.1, e.1.2), e.2) ∈ T ∧
        ((UserAccount.internal e.1.1, e.1.2),
          ctx'.balances e.1.2 e.1.1) ∈ P) := by
  cases hld : ledger_multi_transfer ctx.balances transfers.sources
      transfers.targets with
  | error e =>
    rw [apply_transparent_err_shape ctx transfers e hld] at happ
    simp [Prod.mk.injEq] at happ
  | ok p =>
    obtain ⟨b, deb⟩ := p
    rw [apply_transparent_ok_shape ctx transfers b deb hld,
      Prod.mk.injEq] at happ
    obtain ⟨hc, -⟩ := happ
    rw [← hc]
    refine ⟨(procLeg { ctx with balances := b } [] []
        transfers.sources).2.1,
      (procLeg (procLeg { ctx with balances := b } [] []
          transfers.sources).1 []
        (procLeg { ctx with balances := b } [] []
          transfers.sources).2.2 transfers.targets).2.1,
      (procLeg (procLeg { ctx with balances := b } [] []
          transfers.sources).1 []
        (procLeg { ctx with balances := b } [] []
          transfers.sources).2.2 transfers.targets).2.2,
      ?_, ?_, ?_⟩
    · rw [emit_events, procLeg_events, procLeg_events]
    · intro e he
      have hb2 : (procLeg { ctx with balances := b } [] []
          transfers.sources).1.balances = b := by
        rw [procLeg_balances]
      refine ⟨?_, ?_, ?_, ?_⟩
      · rw [emit_verifiers]
        exact procLeg_verifiers_mono _ _ _ _ _
          (procLeg_entry_verifiers transfers.sources _ [] [] e he).1
      · intro hint
        rw [emit_verifiers]
        exact procLeg_verifiers_mono _ _ _ _ _
          ((procLeg_entry_verifiers transfers.sources _ [] [] e he).2
            hint)
      · exact procLeg_emap_mem transfers.sources _ [] [] hks e he
      · rw [emit_balances, procLeg_balances, hb2]
        exact procLeg_pmap_persist b transfers.targets _ _ _
          (UserAccount.internal e.1.1, e.1.2) hb2
          (procLeg_pmap_mem b transfers.sources _ [] [] rfl e he)
    · intro e he
      have hb2 : (procLeg { ctx with balances := b } [] []
          transfers.sources).1.balances = b := by
        rw [procLeg_balances]
      refine ⟨?_, ?_, ?_, ?_⟩
      · rw [emit_verifiers]
        exact (procLeg_entry_verifiers transfers.targets _ [] _ e he).1
      · intro hint
        rw [emit_verifiers]
        exact (procLeg_entry_verifiers transfers.targets _ [] _ e he).2
          hint
      · exact procLeg_emap_mem transfers.targets _ [] _ hkt e he
      · rw [emit_balances, procLeg_balances, hb2]
        exact procLeg_pmap_mem b transfers.targets _ [] _ hb2 e he

/-- Witness for C4 at a concrete input with a zero-amount target leg:
both accounts and the internal token are registered as verifiers and the
zero-amount entry appears in the event. -/
theorem apply_transparent_transfers_entries_witness :
    ∃ S T P,
      (apply_transparent_transfers exCtx
          ⟨[((exA, exTok), 30)], [((exC, exTok), 0)]⟩).1.events =
        exCtx.events ++
          [{ descriptor := "transfer-from-wasm", level := .tx,
             operation := .transferMulti S T P }] ∧
      (∀ e ∈ [((exA, exTok), 30)],
        e.1.1 ∈ (apply_transparent_transfers exCtx
          ⟨[((exA, exTok), 30)], [((exC, exTok), 0)]⟩).1.verifiers ∧
        (e.1.2.is_internal = true → e.1.2 ∈ (apply_transparent_transfers
          exCtx ⟨[((exA, exTok), 30)],
            [((exC, exTok), 0)]⟩).1.verifiers) ∧
        ((UserAccount.internal e.1.1, e.1.2), e.2) ∈ S ∧
        ((UserAccount.internal e.1.1, e.1.2),
          (apply_transparent_transfers exCtx
            ⟨[((exA, exTok), 30)],
              [((exC, exTok), 0)]⟩).1.balances e.1.2 e.1.1) ∈ P) ∧
      (∀ e ∈ [((exC, exTok), 0)],
        e.1.1 ∈ (apply_transparent_transfers exCtx
          ⟨[((exA, exTok), 30)], [((exC, exTok), 0)]⟩).1.verifiers ∧
        (e.1.2.is_internal = true → e.1.2 ∈ (apply_transparent_transfers
          exCtx ⟨[((exA, exTok), 30)],
            [((exC, exTok), 0)]⟩).1.verifiers) ∧
        ((UserAccount.internal e.1.1, e.1.2), e.2) ∈ T ∧
        ((UserAccount.internal e.1.1, e.1.2),
          (apply_transparent_transfers exCtx
            ⟨[((exA, exTok), 30)],
              [((exC, exTok), 0)]⟩).1.balances e.1.2 e.1.1) ∈ P) := by
  apply apply_transparent_transfers_entries exCtx
    ⟨[((exA, exTok), 30)], [((exC, exTok), 0)]⟩ _ [exA]
  · decide
  · decide
  · have hsnd : (apply_transparent_transfers exCtx
        ⟨[((exA, exTok), 30)], [((exC, exTok), 0)]⟩).2 =
      .ok [exA] := rfl
    rw [← hsnd]

/-! ## Claim C8 -/

/-- C8: two executions on the same starting state whose source and
target legs are permutations of each other produce identical results
(event, verifiers, balances, debited accounts), and the emitted event's
sources/targets/post-balances mappings are in canonical sorted order by
account then token. -/
theorem apply_transparent_transfers_perm_invariant (ctx : Ctx)
    (s1 s2 t1 t2 : List ((Address × Address) × Nat))
    (hs : s1.Perm s2) (ht : t1.Perm t2) :
    apply_transparent_transfers ctx ⟨canonMap s1, canonMap t1⟩ =
      apply_transparent_transfers ctx ⟨canonMap s2, canonMap t2⟩ ∧
    (∀ ctx' debited,
      apply_transparent_transfers ctx ⟨canonMap s1, canonMap t1⟩ =
        (ctx', .ok debited) →
      ∃ S T P, ctx'.events = ctx.events ++
          [{ descriptor := "transfer-from-wasm", level := .tx,
             operation := .transferMulti S T P }] ∧
        KeySorted ekeyCode S ∧ KeySorted ekeyCode T ∧
        KeySorted ekeyCode P) := by
  constructor
  · rw [canonMap_perm hs, canonMap_perm ht]
  · intro ctx' debited happ
    cases hld : ledger_multi_transfer ctx.balances
        (TransparentTransfersRef.sources ⟨canonMap s1, canonMap t1⟩)
        (TransparentTransfersRef.targets ⟨canonMap s1, canonMap t1⟩) with
    | error e =>
      rw [apply_transparent_err_shape ctx ⟨canonMap s1, canonMap t1⟩ e
        hld] at happ
      simp [Prod.mk.injEq] at happ
    | ok p =>
      obtain ⟨b, deb⟩ := p
      rw [apply_transparent_ok_shape ctx ⟨canonMap s1, canonMap t1⟩ b deb
        hld, Prod.mk.injEq] at happ
      obtain ⟨hc, -⟩ := happ
      rw [← hc]
      have hs1 := procLeg_sorted
        (TransparentTransfersRef.sources ⟨canonMap s1, canonMap t1⟩)
        { ctx with balances := b } [] []
        (keySorted_nil ekeyCode) (keySorted_nil ekeyCode)
      have hs2 := procLeg_sorted
        (TransparentTransfersRef.targets ⟨canonMap s1, canonMap t1⟩)
        (procLeg { ctx with balances := b } [] []
          (TransparentTransfersRef.sources
            ⟨canonMap s1, canonMap t1⟩)).1 []
        (procLeg { ctx with balances := b } [] []
          (TransparentTransfersRef.sources
            ⟨canonMap s1, canonMap t1⟩)).2.2
        (keySorted_nil ekeyCode) hs1.2
      exact ⟨_, _, _,
        by rw [emit_events, procLeg_events, procLeg_events],
        hs1.1, hs2.1, hs2.2⟩

/-- Witness for C8 at a concrete input: the two source legs supplied in
both orders yield identical applications. -/
theorem apply_transparent_transfers_perm_invariant_witness :
    apply_transparent_transfers exCtx
        ⟨canonMap [((exA, exTok), 30), ((exB, exTok), 2)], canonMap []⟩ =
      apply_transparent_transfers exCtx
        ⟨canonMap [((exB, exTok), 2), ((exA, exTok), 30)],
          canonMap []⟩ :=
  (apply_transparent_transfers_perm_invariant exCtx
    [((exA, exTok), 30), ((exB, exTok), 2)]
    [((exB, exTok), 2), ((exA, exTok), 30)] [] []
    (List.Perm.swap _ _ _) (List.Perm.refl _)).1

end Token
